import Mathlib

/-!
Verification development for the project-indexer code base.

The definitions below are shallow embeddings of the Python source:
  - src/src/storage/checkpoint_manager.py (checkpoint rows, mark/should_reindex)
  - src/src/storage/models.py (AnalysisField, ProjectAnalysisResult)
  - src/src/indexer/iterative_analyzer.py (confidence-weighted field merge)
  - src/src/indexer/file_index_manager.py (per-file pipeline event order, status)
  - src/src/indexer/function_index_manager.py (gating, per-function fallback)
  - src/src/indexer/chunker.py (line-based chunking)
  - src/src/indexer/scanner.py (scan filtering and output order)
External effects (SQLite, ChromaDB, LLM and embedding providers, the file
system walk) are modelled as explicit state, oracles, or event traces.
-/

namespace ProjectIndexer

/-! ### Checkpoint manager (src/src/storage/checkpoint_manager.py)

A row of the file_index_checkpoints table, keyed by (project_path, file_path).
The table itself is modelled as a partial map from the key to the row; the
SQL INSERT OR REPLACE of mark_file_indexed is a point update of that map. -/

structure CheckpointRow where
  file_hash : String
  chunks_count : Nat
  status : String
  error_message : Option String
deriving Repr, DecidableEq

def CheckpointTable : Type := String × String → Option CheckpointRow

def emptyTable : CheckpointTable := fun _ => none

/-- One call to CheckpointManager.mark_file_indexed: project, file, hash,
chunk count and the optional error string. -/
structure MarkOp where
  project_path : String
  file_path : String
  file_hash : String
  chunks_count : Nat
  error : Option String
deriving Repr, DecidableEq

/-- Python status = (failed if error else completed); an empty error string is
falsy in Python and therefore also yields completed. -/
def statusOfError : Option String → String
  | none => "completed"
  | some e => if e = "" then "completed" else "failed"

def mark_file_indexed (t : CheckpointTable) (op : MarkOp) : CheckpointTable :=
  fun k =>
    if k = (op.project_path, op.file_path) then
      some { file_hash := op.file_hash, chunks_count := op.chunks_count,
             status := statusOfError op.error, error_message := op.error }
    else t k

/-- A checkpoint table reachable from the empty table by a sequence of
mark_file_indexed writes. -/
def applyMarks (ops : List MarkOp) : CheckpointTable :=
  ops.foldl mark_file_indexed emptyTable

/-- CheckpointManager.should_reindex_file, lines 322-342 of
checkpoint_manager.py: no row, a failed row, or a hash mismatch force a
reindex; otherwise the file is skipped. -/
def should_reindex_file (t : CheckpointTable) (project_path file_path current_hash : String) : Bool :=
  match t (project_path, file_path) with
  | none => true
  | some row =>
    if row.status = "failed" then true
    else if row.file_hash ≠ current_hash then true
    else false

/-! ### Analysis fields (src/src/storage/models.py) -/

/-- Value carried by an analysis field: either free text or a list of strings
(the Python code stores str or list). -/
inductive AValue where
  | text (s : String)
  | items (l : List String)
deriving Repr, DecidableEq

structure AnalysisField where
  value : Option AValue
  confidence : Int
deriving Repr, DecidableEq

/-- AnalysisField construction. Python __post_init__ raises ValueError when
the confidence is outside 0..100; the failure is modelled as Except.error. -/
def mkAnalysisField (value : Option AValue) (confidence : Int) : Except String AnalysisField :=
  if 0 ≤ confidence ∧ confidence ≤ 100 then
    Except.ok { value := value, confidence := confidence }
  else
    Except.error ("Confidence must be 0-100, got " ++ toString confidence)

structure ProjectAnalysisResult where
  project_path : String
  project_description : AnalysisField
  languages : AnalysisField
  frameworks : AnalysisField
  modules : AnalysisField
  entry_points : AnalysisField
  architecture : AnalysisField
  iteration_count : Int
  total_files_analyzed : Nat
  files_analyzed : List String
  completed : Bool
deriving Repr, DecidableEq

/-- Dataclass defaults of ProjectAnalysisResult: description and architecture
start as (None, 0), the four list fields start as ([], 0). -/
def initial_state (project_path : String) : ProjectAnalysisResult :=
  { project_path := project_path
    project_description := ⟨none, 0⟩
    languages := ⟨some (AValue.items []), 0⟩
    frameworks := ⟨some (AValue.items []), 0⟩
    modules := ⟨some (AValue.items []), 0⟩
    entry_points := ⟨some (AValue.items []), 0⟩
    architecture := ⟨none, 0⟩
    iteration_count := 0
    total_files_analyzed := 0
    files_analyzed := []
    completed := false }

def ProjectAnalysisResult.min_confidence (s : ProjectAnalysisResult) : Int :=
  min s.project_description.confidence
    (min s.languages.confidence
      (min s.frameworks.confidence
        (min s.modules.confidence
          (min s.entry_points.confidence s.architecture.confidence))))

/-- Python avg_confidence uses sum // 6, i.e. floor division. -/
def ProjectAnalysisResult.avg_confidence (s : ProjectAnalysisResult) : Int :=
  Int.fdiv
    (s.project_description.confidence + s.languages.confidence +
      s.frameworks.confidence + s.modules.confidence +
      s.entry_points.confidence + s.architecture.confidence) 6

/-! ### Iterative analyzer merge (src/src/indexer/iterative_analyzer.py) -/

/-- update_field (lines 579-583): the incoming pair replaces the stored field
when the new confidence is strictly higher or the stored value is None;
constructing the replacement AnalysisField validates the confidence range. -/
def update_field (current : AnalysisField) (new_value : Option AValue) (new_conf : Int) :
    Except String AnalysisField :=
  if new_conf > current.confidence ∨ current.value = none then
    mkAnalysisField new_value new_conf
  else
    Except.ok current

/-- The six value/confidence pairs of a validated LLM analysis response. -/
structure AnalysisResponse where
  project_description : Option AValue
  project_description_confidence : Int
  languages : Option AValue
  languages_confidence : Int
  frameworks : Option AValue
  frameworks_confidence : Int
  modules : Option AValue
  modules_confidence : Int
  entry_points : Option AValue
  entry_points_confidence : Int
  architecture : Option AValue
  architecture_confidence : Int
deriving Repr, DecidableEq

def confidence_in_range (c : Int) : Bool :=
  decide (0 ≤ c) && decide (c ≤ 100)

/-- _validate_response: every confidence must be an integer in 0..100. -/
def validate_response (r : AnalysisResponse) : Bool :=
  confidence_in_range r.project_description_confidence &&
  confidence_in_range r.languages_confidence &&
  confidence_in_range r.frameworks_confidence &&
  confidence_in_range r.modules_confidence &&
  confidence_in_range r.entry_points_confidence &&
  confidence_in_range r.architecture_confidence

/-- _update_state_from_response (lines 571-621): apply update_field to each of
the six fields, reset completed to False and stamp the iteration count. -/
def update_state_from_response (current_state : ProjectAnalysisResult)
    (response : AnalysisResponse) (files_analyzed : List String) (iteration : Int) :
    Except String ProjectAnalysisResult := do
  let pd ← update_field current_state.project_description
    response.project_description response.project_description_confidence
  let lang ← update_field current_state.languages
    response.languages response.languages_confidence
  let fw ← update_field current_state.frameworks
    response.frameworks response.frameworks_confidence
  let md ← update_field current_state.modules
    response.modules response.modules_confidence
  let ep ← update_field current_state.entry_points
    response.entry_points response.entry_points_confidence
  let arch ← update_field current_state.architecture
    response.architecture response.architecture_confidence
  Except.ok
    { project_path := current_state.project_path
      project_description := pd
      languages := lang
      frameworks := fw
      modules := md
      entry_points := ep
      architecture := arch
      iteration_count := iteration
      total_files_analyzed := files_analyzed.length
      files_analyzed := files_analyzed
      completed := false }

/-- A sequence of PA merge steps: each element carries the validated response
together with the files_analyzed list and iteration number passed by the
iteration loop. -/
def apply_responses : ProjectAnalysisResult → List (AnalysisResponse × List String × Int) →
    Except String ProjectAnalysisResult
  | s, [] => Except.ok s
  | s, (r, fa, it) :: rest => do
    let s1 ← update_state_from_response s r fa it
    apply_responses s1 rest

/-- The merge rule exactly as the specification words it: replace iff the
incoming confidence is strictly greater or the stored value is absent. -/
def merge_rule_spec (current : AnalysisField) (new_value : Option AValue) (new_conf : Int) :
    AnalysisField :=
  if new_conf > current.confidence ∨ current.value = none then ⟨new_value, new_conf⟩
  else current

/-! ### Helper lemmas for the checkpoint table -/

lemma statusOfError_cases (e : Option String) :
    statusOfError e = "completed" ∨ statusOfError e = "failed" := by
  cases e with
  | none => left; rfl
  | some s =>
    by_cases h : s = "" <;> simp [statusOfError, h]

lemma applyMarks_status (ops : List MarkOp) :
    ∀ k row, applyMarks ops k = some row → row.status = "completed" ∨ row.status = "failed" := by
  suffices h : ∀ (t : CheckpointTable),
      (∀ k row, t k = some row → row.status = "completed" ∨ row.status = "failed") →
      ∀ k row, (ops.foldl mark_file_indexed t) k = some row →
        row.status = "completed" ∨ row.status = "failed" by
    intro k row hk
    exact h emptyTable (by intro k row h0; simp [emptyTable] at h0) k row hk
  induction ops with
  | nil => intro t ht k row hk; exact ht k row hk
  | cons op rest ih =>
    intro t ht k row hk
    refine ih (mark_file_indexed t op) ?_ k row hk
    intro k1 row1 h1
    by_cases hkey : k1 = (op.project_path, op.file_path)
    · simp [mark_file_indexed, hkey] at h1
      rw [← h1]
      exact statusOfError_cases op.error
    · simp [mark_file_indexed, hkey] at h1
      exact ht k1 row1 h1

/-- C1. should_reindex_file over any reachable checkpoint table returns false
exactly when a row for the key exists with status completed and a hash equal
to the current hash; absent rows, failed rows and hash mismatches all yield
true. -/
theorem should_reindex_file_false_iff (ops : List MarkOp)
    (project_path file_path current_hash : String) :
    should_reindex_file (applyMarks ops) project_path file_path current_hash = false ↔
      ∃ row, applyMarks ops (project_path, file_path) = some row ∧
        row.status = "completed" ∧ row.file_hash = current_hash := by
  cases hrow : applyMarks ops (project_path, file_path) with
  | none => simp [should_reindex_file, hrow]
  | some row =>
    have hst := applyMarks_status ops _ row hrow
    simp only [should_reindex_file, hrow]
    constructor
    · intro h
      by_cases hfail : row.status = "failed"
      · rw [if_pos hfail] at h; exact absurd h (by decide)
      · rw [if_neg hfail] at h
        by_cases hh : row.file_hash ≠ current_hash
        · rw [if_pos hh] at h; exact absurd h (by decide)
        · exact ⟨row, rfl, hst.resolve_right hfail, not_not.mp hh⟩
    · rintro ⟨row1, hrow1, hcomp, hhash⟩
      injection hrow1 with h1
      subst h1
      rw [if_neg (by rw [hcomp]; decide), if_neg (by rw [hhash]; simp)]

/-- Witness for C1: a concrete completed row with a matching hash suppresses
reindexing. -/
theorem should_reindex_file_false_iff_witness :
    should_reindex_file
      (applyMarks [⟨"/proj", "src/a.py", "h1", 3, none⟩]) "/proj" "src/a.py" "h1" = false :=
  (should_reindex_file_false_iff [⟨"/proj", "src/a.py", "h1", 3, none⟩]
      "/proj" "src/a.py" "h1").mpr
    ⟨⟨"h1", 3, "completed", none⟩, by decide, by decide, by decide⟩

/-! ### Merge-rule lemmas -/

lemma update_field_eq (current : AnalysisField) (v : Option AValue) (c : Int)
    (h0 : 0 ≤ c) (h1 : c ≤ 100) :
    update_field current v c = Except.ok (merge_rule_spec current v c) := by
  unfold update_field merge_rule_spec mkAnalysisField
  by_cases hc : c > current.confidence ∨ current.value = none
  · rw [if_pos hc, if_pos hc, if_pos ⟨h0, h1⟩]
  · rw [if_neg hc, if_neg hc]

lemma bind_ok_inv {α β : Type} {e : Except String α} {k : α → Except String β} {b : β}
    (h : e >>= k = Except.ok b) : ∃ a, e = Except.ok a ∧ k a = Except.ok b := by
  cases e with
  | error s => simp [Bind.bind, Except.bind] at h
  | ok a => exact ⟨a, rfl, by simpa [Bind.bind, Except.bind] using h⟩

lemma validate_response_bounds (r : AnalysisResponse) (hv : validate_response r = true) :
    (0 ≤ r.project_description_confidence ∧ r.project_description_confidence ≤ 100) ∧
    (0 ≤ r.languages_confidence ∧ r.languages_confidence ≤ 100) ∧
    (0 ≤ r.frameworks_confidence ∧ r.frameworks_confidence ≤ 100) ∧
    (0 ≤ r.modules_confidence ∧ r.modules_confidence ≤ 100) ∧
    (0 ≤ r.entry_points_confidence ∧ r.entry_points_confidence ≤ 100) ∧
    (0 ≤ r.architecture_confidence ∧ r.architecture_confidence ≤ 100) := by
  simp only [validate_response, confidence_in_range, Bool.and_eq_true,
    decide_eq_true_eq] at hv
  tauto

/-- C3. On any validated response, each of the six fields of the merged state
follows the rule: the incoming pair replaces the stored field exactly when
the incoming confidence is strictly greater than the stored confidence or the
stored value is absent; otherwise the stored field is kept unchanged. -/
theorem update_state_follows_merge_rule (s : ProjectAnalysisResult) (r : AnalysisResponse)
    (files_analyzed : List String) (iteration : Int)
    (hv : validate_response r = true) :
    update_state_from_response s r files_analyzed iteration = Except.ok
      { project_path := s.project_path
        project_description := merge_rule_spec s.project_description
          r.project_description r.project_description_confidence
        languages := merge_rule_spec s.languages r.languages r.languages_confidence
        frameworks := merge_rule_spec s.frameworks r.frameworks r.frameworks_confidence
        modules := merge_rule_spec s.modules r.modules r.modules_confidence
        entry_points := merge_rule_spec s.entry_points r.entry_points
          r.entry_points_confidence
        architecture := merge_rule_spec s.architecture r.architecture
          r.architecture_confidence
        iteration_count := iteration
        total_files_analyzed := files_analyzed.length
        files_analyzed := files_analyzed
        completed := false } := by
  obtain ⟨h1, h2, h3, h4, h5, h6⟩ := validate_response_bounds r hv
  unfold update_state_from_response
  rw [update_field_eq _ _ _ h1.1 h1.2, update_field_eq _ _ _ h2.1 h2.2,
    update_field_eq _ _ _ h3.1 h3.2, update_field_eq _ _ _ h4.1 h4.2,
    update_field_eq _ _ _ h5.1 h5.2, update_field_eq _ _ _ h6.1 h6.2]
  rfl

/-- Witness for C3 at a concrete state and response. -/
theorem update_state_follows_merge_rule_witness :
    update_state_from_response (initial_state "/proj")
      ⟨some (AValue.text "an indexer"), 55, none, 0, none, 0, none, 0, none, 0, none, 0⟩
      ["README.md"] 1 = Except.ok
      { project_path := "/proj"
        project_description := ⟨some (AValue.text "an indexer"), 55⟩
        languages := ⟨some (AValue.items []), 0⟩
        frameworks := ⟨some (AValue.items []), 0⟩
        modules := ⟨some (AValue.items []), 0⟩
        entry_points := ⟨some (AValue.items []), 0⟩
        architecture := ⟨none, 0⟩
        iteration_count := 1
        total_files_analyzed := 1
        files_analyzed := ["README.md"]
        completed := false } := by
  rw [update_state_follows_merge_rule (initial_state "/proj")
    ⟨some (AValue.text "an indexer"), 55, none, 0, none, 0, none, 0, none, 0, none, 0⟩
    ["README.md"] 1 (by decide)]
  rfl

lemma update_field_monotone (current : AnalysisField) (v : Option AValue) (c : Int)
    (f : AnalysisField) (hval : current.value ≠ none)
    (h : update_field current v c = Except.ok f) :
    current.confidence ≤ f.confidence := by
  unfold update_field mkAnalysisField at h
  by_cases hc : c > current.confidence ∨ current.value = none
  · rw [if_pos hc] at h
    rcases hc with hgt | hnone
    · by_cases hr : 0 ≤ c ∧ c ≤ 100
      · rw [if_pos hr] at h; injection h with h1; rw [← h1]; exact le_of_lt hgt
      · rw [if_neg hr] at h; cases h
    · exact absurd hnone hval
  · rw [if_neg hc] at h; injection h with h1; rw [← h1]

/-- C2 (amended). A merge step never lowers the stored confidence of a field
whose stored value is present; only a field whose stored value is None can
have its confidence lowered by a merge. -/
theorem update_state_monotone_on_present_values (s : ProjectAnalysisResult)
    (r : AnalysisResponse) (files_analyzed : List String) (iteration : Int)
    (s2 : ProjectAnalysisResult)
    (h : update_state_from_response s r files_analyzed iteration = Except.ok s2) :
    (s.project_description.value ≠ none →
      s.project_description.confidence ≤ s2.project_description.confidence) ∧
    (s.languages.value ≠ none → s.languages.confidence ≤ s2.languages.confidence) ∧
    (s.frameworks.value ≠ none → s.frameworks.confidence ≤ s2.frameworks.confidence) ∧
    (s.modules.value ≠ none → s.modules.confidence ≤ s2.modules.confidence) ∧
    (s.entry_points.value ≠ none → s.entry_points.confidence ≤ s2.entry_points.confidence) ∧
    (s.architecture.value ≠ none →
      s.architecture.confidence ≤ s2.architecture.confidence) := by
  unfold update_state_from_response at h
  obtain ⟨pd, hpd, h⟩ := bind_ok_inv h
  obtain ⟨lang, hlang, h⟩ := bind_ok_inv h
  obtain ⟨fw, hfw, h⟩ := bind_ok_inv h
  obtain ⟨md, hmd, h⟩ := bind_ok_inv h
  obtain ⟨ep, hep, h⟩ := bind_ok_inv h
  obtain ⟨arch, harch, h⟩ := bind_ok_inv h
  injection h with h2
  subst h2
  exact ⟨fun hv => update_field_monotone _ _ _ _ hv hpd,
    fun hv => update_field_monotone _ _ _ _ hv hlang,
    fun hv => update_field_monotone _ _ _ _ hv hfw,
    fun hv => update_field_monotone _ _ _ _ hv hmd,
    fun hv => update_field_monotone _ _ _ _ hv hep,
    fun hv => update_field_monotone _ _ _ _ hv harch⟩

/-- Witness for the amended C2 at a concrete merge step. -/
theorem update_state_monotone_on_present_values_witness :
    (1 : Int) ≤ 60 :=
  ((update_state_monotone_on_present_values
    { (initial_state "/proj") with languages := ⟨some (AValue.items ["Python"]), 1⟩ }
    ⟨none, 0, some (AValue.items ["Python", "Shell"]), 60, none, 0, none, 0, none, 0, none, 0⟩
    [] 1
    { (initial_state "/proj") with
        languages := ⟨some (AValue.items ["Python", "Shell"]), 60⟩
        iteration_count := 1 }
    (by rfl)).2.1 (by decide))

/-- Response used by the C2 counterexample: a validated iteration that sets
the description confidence to 80 while the description value stays None
(the response schema allows null values alongside any confidence). -/
def c2_response1 : AnalysisResponse :=
  ⟨none, 80, none, 0, none, 0, none, 0, none, 0, none, 0⟩

/-- Second response of the C2 counterexample: a later iteration supplies an
actual description with low confidence 10. -/
def c2_response2 : AnalysisResponse :=
  ⟨some (AValue.text "a code indexer"), 10, none, 0, none, 0, none, 0, none, 0, none, 0⟩

/-- Counterexample to C2 as stated: both responses are validated, yet the
stored confidence of project_description drops from 80 to 10 in the second
merge step, because the stored value was still None and the merge rule then
accepts the incoming pair unconditionally. -/
theorem monotone_confidence_counterexample :
    validate_response c2_response1 = true ∧
    validate_response c2_response2 = true ∧
    ((do
      let s1 ← update_state_from_response (initial_state "/proj") c2_response1 ["README.md"] 1
      let s2 ← update_state_from_response s1 c2_response2 ["README.md", "setup.py"] 2
      Except.ok (s1.project_description.confidence, s2.project_description.confidence) :
        Except String (Int × Int)) = Except.ok (80, 10)) ∧
    (10 : Int) < 80 := by
  exact ⟨by decide, by decide, rfl, by decide⟩

/-! ### Reachable confidence ranges -/

def fields_in_range (s : ProjectAnalysisResult) : Prop :=
  (0 ≤ s.project_description.confidence ∧ s.project_description.confidence ≤ 100) ∧
  (0 ≤ s.languages.confidence ∧ s.languages.confidence ≤ 100) ∧
  (0 ≤ s.frameworks.confidence ∧ s.frameworks.confidence ≤ 100) ∧
  (0 ≤ s.modules.confidence ∧ s.modules.confidence ≤ 100) ∧
  (0 ≤ s.entry_points.confidence ∧ s.entry_points.confidence ≤ 100) ∧
  (0 ≤ s.architecture.confidence ∧ s.architecture.confidence ≤ 100)

lemma update_field_ok_range (current : AnalysisField) (v : Option AValue) (c : Int)
    (f : AnalysisField) (hcur : 0 ≤ current.confidence ∧ current.confidence ≤ 100)
    (h : update_field current v c = Except.ok f) :
    0 ≤ f.confidence ∧ f.confidence ≤ 100 := by
  unfold update_field mkAnalysisField at h
  by_cases hc : c > current.confidence ∨ current.value = none
  · rw [if_pos hc] at h
    by_cases hr : 0 ≤ c ∧ c ≤ 100
    · rw [if_pos hr] at h; injection h with h1; rw [← h1]; exact hr
    · rw [if_neg hr] at h; cases h
  · rw [if_neg hc] at h; injection h with h1; rw [← h1]; exact hcur

lemma update_state_preserves_range (s : ProjectAnalysisResult) (r : AnalysisResponse)
    (files_analyzed : List String) (iteration : Int) (s2 : ProjectAnalysisResult)
    (hs : fields_in_range s)
    (h : update_state_from_response s r files_analyzed iteration = Except.ok s2) :
    fields_in_range s2 := by
  obtain ⟨g1, g2, g3, g4, g5, g6⟩ := hs
  unfold update_state_from_response at h
  obtain ⟨pd, hpd, h⟩ := bind_ok_inv h
  obtain ⟨lang, hlang, h⟩ := bind_ok_inv h
  obtain ⟨fw, hfw, h⟩ := bind_ok_inv h
  obtain ⟨md, hmd, h⟩ := bind_ok_inv h
  obtain ⟨ep, hep, h⟩ := bind_ok_inv h
  obtain ⟨arch, harch, h⟩ := bind_ok_inv h
  injection h with h2
  subst h2
  exact ⟨update_field_ok_range _ _ _ _ g1 hpd, update_field_ok_range _ _ _ _ g2 hlang,
    update_field_ok_range _ _ _ _ g3 hfw, update_field_ok_range _ _ _ _ g4 hmd,
    update_field_ok_range _ _ _ _ g5 hep, update_field_ok_range _ _ _ _ g6 harch⟩

lemma apply_responses_preserves_range :
    ∀ (steps : List (AnalysisResponse × List String × Int)) (s s2 : ProjectAnalysisResult),
      fields_in_range s → apply_responses s steps = Except.ok s2 → fields_in_range s2 := by
  intro steps
  induction steps with
  | nil =>
    intro s s2 hs h
    injection h with h1
    rw [← h1]; exact hs
  | cons step rest ih =>
    intro s s2 hs h
    obtain ⟨r, fa, it⟩ := step
    unfold apply_responses at h
    obtain ⟨s1, hs1, h⟩ := bind_ok_inv h
    exact ih s1 s2 (update_state_preserves_range s r fa it s1 hs hs1) h

/-- C10. Constructing an AnalysisField with a confidence outside 0..100 fails
with the ValueError message, and every state reachable from the dataclass
defaults through merge steps has all six confidences, and therefore the
min_confidence and avg_confidence values, inside 0..100. -/
theorem analysis_confidence_always_in_range :
    (∀ (v : Option AValue) (c : Int), (c < 0 ∨ 100 < c) →
      mkAnalysisField v c = Except.error ("Confidence must be 0-100, got " ++ toString c)) ∧
    (∀ (project_path : String) (steps : List (AnalysisResponse × List String × Int))
      (s : ProjectAnalysisResult),
      apply_responses (initial_state project_path) steps = Except.ok s →
      fields_in_range s ∧
      0 ≤ s.min_confidence ∧ s.min_confidence ≤ 100 ∧
      0 ≤ s.avg_confidence ∧ s.avg_confidence ≤ 100) := by
  constructor
  · intro v c hc
    unfold mkAnalysisField
    rw [if_neg (by omega)]
  · intro project_path steps s h
    have hinit : fields_in_range (initial_state project_path) := by
      unfold fields_in_range initial_state; norm_num
    have hs := apply_responses_preserves_range steps _ s hinit h
    obtain ⟨g1, g2, g3, g4, g5, g6⟩ := hs
    refine ⟨⟨g1, g2, g3, g4, g5, g6⟩, ?_, ?_, ?_, ?_⟩
    · exact le_min g1.1 (le_min g2.1 (le_min g3.1 (le_min g4.1 (le_min g5.1 g6.1))))
    · exact le_trans (min_le_left _ _) g1.2
    · unfold ProjectAnalysisResult.avg_confidence
      rw [Int.fdiv_eq_ediv _ (by norm_num)]
      omega
    · unfold ProjectAnalysisResult.avg_confidence
      rw [Int.fdiv_eq_ediv _ (by norm_num)]
      omega

/-- Witness for C10: a rejected out-of-range construction and a concrete
reachable state with all confidences in range. -/
theorem analysis_confidence_always_in_range_witness :
    mkAnalysisField none 150 = Except.error "Confidence must be 0-100, got 150" ∧
    fields_in_range (initial_state "/proj") :=
  ⟨analysis_confidence_always_in_range.1 none 150 (by decide),
    (analysis_confidence_always_in_range.2 "/proj" [] (initial_state "/proj") rfl).1⟩

/-! ### File index pipeline (src/src/indexer/file_index_manager.py)

index_files is modelled by the externally observable sequence of effects it
produces. Per file, process_file either returns the documents built for the
file (success) or an error string (failure); in either case a checkpoint row
is written inside process_file. After the whole loop, the accumulated
documents are stored in one batch (Step 7). The project-context document is
upserted before the loop. -/

inductive UnitOutcome where
  | success (docs : List String)
  | failure (error : String)
deriving Repr, DecidableEq

inductive FIEvent where
  | contextUpsert
  | checkpoint (file_path : String) (status : String)
  | upsertDocs (doc_ids : List String)
deriving Repr, DecidableEq

/-- The checkpoint write performed inside process_file: mark_file_indexed with
no error on success, with the error string on failure. -/
def checkpointEvent (file_path : String) : UnitOutcome → FIEvent
  | UnitOutcome.success _ => FIEvent.checkpoint file_path "completed"
  | UnitOutcome.failure _ => FIEvent.checkpoint file_path "failed"

/-- indexed_docs accumulated across the per-file loop. -/
def collectDocs (files : List (String × UnitOutcome)) : List String :=
  files.foldr
    (fun f acc =>
      match f.2 with
      | UnitOutcome.success docs => docs ++ acc
      | UnitOutcome.failure _ => acc) []

/-- The effect trace of index_files after its preconditions have passed:
context upsert, then one checkpoint per processed file, then (when any
documents were produced) the single batched add_documents call of Step 7. -/
def index_files_trace (files : List (String × UnitOutcome)) : List FIEvent :=
  FIEvent.contextUpsert ::
    (files.map (fun f => checkpointEvent f.1 f.2) ++
      (if (collectDocs files).isEmpty then [] else [FIEvent.upsertDocs (collectDocs files)]))

lemma checkpointEvent_ne_upsert (p : String) (o : UnitOutcome) (ds : List String) :
    checkpointEvent p o ≠ FIEvent.upsertDocs ds := by
  cases o <;> simp [checkpointEvent]

lemma trace_upsert_position (files : List (String × UnitOutcome)) (j : Nat)
    (ds : List String)
    (hj : (index_files_trace files)[j]? = some (FIEvent.upsertDocs ds)) :
    j = files.length + 1 := by
  unfold index_files_trace at hj
  cases j with
  | zero => simp at hj
  | succ k =>
    simp only [List.getElem?_cons_succ] at hj
    by_cases hk : k < (files.map (fun f => checkpointEvent f.1 f.2)).length
    · rw [List.getElem?_append_left hk, List.getElem?_map] at hj
      cases hfk : files[k]? with
      | none => rw [hfk] at hj; simp at hj
      | some f =>
        rw [hfk] at hj
        have h1 : checkpointEvent f.1 f.2 = FIEvent.upsertDocs ds := by simpa using hj
        exact absurd h1 (checkpointEvent_ne_upsert f.1 f.2 ds)
    · push_neg at hk
      rw [List.getElem?_append_right hk] at hj
      by_cases hemp : (collectDocs files).isEmpty
      · rw [if_pos hemp] at hj; simp at hj
      · rw [if_neg hemp] at hj
        rcases Nat.lt_or_ge (k - (files.map (fun f => checkpointEvent f.1 f.2)).length) 1 with hlt | hge
        · have h0 : k - (files.map (fun f => checkpointEvent f.1 f.2)).length = 0 := by omega
          simp only [List.length_map] at hk h0
          omega
        · rw [List.getElem?_len_le (by simpa using hge)] at hj
          simp at hj

lemma trace_checkpoint_position (files : List (String × UnitOutcome)) (i : Nat)
    (p s : String)
    (hi : (index_files_trace files)[i]? = some (FIEvent.checkpoint p s)) :
    1 ≤ i ∧ i ≤ files.length := by
  unfold index_files_trace at hi
  cases i with
  | zero => simp at hi
  | succ k =>
    simp only [List.getElem?_cons_succ] at hi
    by_cases hk : k < (files.map (fun f => checkpointEvent f.1 f.2)).length
    · simp only [List.length_map] at hk
      omega
    · push_neg at hk
      rw [List.getElem?_append_right hk] at hi
      by_cases hemp : (collectDocs files).isEmpty
      · rw [if_pos hemp] at hi; simp at hi
      · rw [if_neg hemp] at hi
        rcases Nat.lt_or_ge (k - (files.map (fun f => checkpointEvent f.1 f.2)).length) 1 with hlt | hge
        · have h0 : k - (files.map (fun f => checkpointEvent f.1 f.2)).length = 0 := by omega
          rw [h0] at hi
          simp at hi
        · rw [List.getElem?_len_le (by simpa using hge)] at hi
          simp at hi

/-- C4 (amended). In every index_files run, every per-file checkpoint write,
including the completed ones, happens strictly before the batched vector
store upsert of the files' documents: the code writes the checkpoint inside
process_file and stores all documents only afterwards in Step 7. -/
theorem checkpoint_precedes_batch_upsert (files : List (String × UnitOutcome))
    (i j : Nat) (p s : String) (ds : List String)
    (hi : (index_files_trace files)[i]? = some (FIEvent.checkpoint p s))
    (hj : (index_files_trace files)[j]? = some (FIEvent.upsertDocs ds)) :
    i < j := by
  have h1 := trace_checkpoint_position files i p s hi
  have h2 := trace_upsert_position files j ds hj
  omega

/-- Witness for the amended C4: in a run over one successful file, the
completed checkpoint (position 1) precedes the batch upsert (position 2). -/
theorem checkpoint_precedes_batch_upsert_witness : (1 : Nat) < 2 :=
  checkpoint_precedes_batch_upsert [("src/a.py", UnitOutcome.success ["d0"])]
    1 2 "src/a.py" "completed" ["d0"] (by decide) (by decide)

/-- Counterexample to C4 as stated: for a single successfully processed file
the trace is context upsert, completed checkpoint, then the batch upsert, so
no upsert of the file's documents precedes its completed checkpoint — the
completed checkpoint is written while the documents are still absent from
the store. -/
theorem checkpoint_after_upsert_counterexample :
    index_files_trace [("src/a.py", UnitOutcome.success ["d0"])] =
      [FIEvent.contextUpsert, FIEvent.checkpoint "src/a.py" "completed",
        FIEvent.upsertDocs ["d0"]] ∧
    ¬ List.Sublist [FIEvent.upsertDocs ["d0"], FIEvent.checkpoint "src/a.py" "completed"]
      (index_files_trace [("src/a.py", UnitOutcome.success ["d0"])]) := by
  constructor
  · decide
  · decide

/-! ### Operation status (file_index_manager.py line 244 and
function_index_manager.py line 259) -/

def isFailure : UnitOutcome → Bool
  | UnitOutcome.failure _ => true
  | UnitOutcome.success _ => false

/-- The failed_files counter accumulated over the per-unit results. -/
def failed_count (outcomes : List UnitOutcome) : Nat :=
  outcomes.countP isFailure

/-- Return status of index_files: success if failed_files == 0 else partial. -/
def index_files_status (outcomes : List UnitOutcome) : String :=
  if failed_count outcomes = 0 then "success" else "partial"

/-- Return status of index_functions: identical rule. -/
def index_functions_status (outcomes : List UnitOutcome) : String :=
  if failed_count outcomes = 0 then "success" else "partial"

/-- C5 (amended). Both index_files and index_functions report partial
whenever at least one per-unit failure occurred — even when no unit
succeeded — and success when no unit failed; the failed status is produced
only by the precondition checks or a run-level exception, never from
per-unit outcomes. -/
theorem status_partial_iff_some_failure (outcomes : List UnitOutcome) :
    (0 < failed_count outcomes →
      index_files_status outcomes = "partial" ∧
      index_functions_status outcomes = "partial") ∧
    (failed_count outcomes = 0 →
      index_files_status outcomes = "success" ∧
      index_functions_status outcomes = "success") := by
  constructor
  · intro h
    have hne : ¬ failed_count outcomes = 0 := by omega
    exact ⟨by rw [index_files_status, if_neg hne],
      by rw [index_functions_status, if_neg hne]⟩
  · intro h
    exact ⟨by rw [index_files_status, if_pos h],
      by rw [index_functions_status, if_pos h]⟩

/-- Witness for the amended C5 on a run with one failed and one successful
unit. -/
theorem status_partial_iff_some_failure_witness :
    index_files_status [UnitOutcome.success ["d0"], UnitOutcome.failure "boom"] = "partial" :=
  ((status_partial_iff_some_failure
      [UnitOutcome.success ["d0"], UnitOutcome.failure "boom"]).1 (by decide)).1

/-- Counterexample to C5 as stated: a run in which the only unit failed — so
nothing progressed — still returns partial, not failed, in both managers. -/
theorem status_failed_when_nothing_progressed_counterexample :
    index_files_status [UnitOutcome.failure "provider down"] = "partial" ∧
    index_functions_status [UnitOutcome.failure "provider down"] = "partial" ∧
    ("partial" : String) ≠ "failed" := by
  exact ⟨by decide, by decide, by decide⟩

/-! ### Function index gating (src/src/indexer/function_index_manager.py)

index_functions checks its three preconditions before touching the vector
store; the store interactions of the rest of the run are abstracted as the
pipeline_events argument, and the per-run result of the pipeline as
pipeline_result. -/

inductive StoreEvent where
  | create_collection (kind : String)
  | delete_collection (kind : String)
  | add_documents (kind : String) (count : Nat)
deriving Repr, DecidableEq

structure RunOutcome where
  status : String
  error : Option String
deriving Repr, DecidableEq

def msg_no_analysis : String :=
  "No project analysis found. Run load_project_info first."

def msg_incomplete (min_conf : Int) : String :=
  "Project analysis incomplete (min_confidence=" ++ toString min_conf ++
    "%). Run load_project_info first."

def msg_no_file_index : String :=
  "File index not found. Run index_project_files first before indexing functions."

/-- index_functions (lines 96-147): the precondition ladder runs before any
collection is created, deleted, or written; only when all three gates pass
does the run reach the force_reindex collection delete and Step 3
get_or_create_collection. -/
def index_functions_run (analysis : Option ProjectAnalysisResult) (fi_completed : Nat)
    (force_reindex : Bool) (pipeline_events : List StoreEvent)
    (pipeline_result : RunOutcome) : RunOutcome × List StoreEvent :=
  match analysis with
  | none => (⟨"failed", some msg_no_analysis⟩, [])
  | some a =>
    if ¬ a.completed ∧ a.min_confidence < 70 then
      (⟨"failed", some (msg_incomplete a.min_confidence)⟩, [])
    else if fi_completed = 0 then
      (⟨"failed", some msg_no_file_index⟩, [])
    else
      (pipeline_result,
        (if force_reindex then [StoreEvent.delete_collection "functions"] else []) ++
          StoreEvent.create_collection "functions" :: pipeline_events)

/-- C6. When any precondition fails — no analysis record, analysis neither
completed nor at min_confidence 70, or a file index with zero completed
rows — index_functions returns a failed outcome whose error names the
missing prerequisite, and the vector store sees no event at all. -/
theorem index_functions_gating (analysis : Option ProjectAnalysisResult)
    (fi_completed : Nat) (force_reindex : Bool) (pipeline_events : List StoreEvent)
    (pipeline_result : RunOutcome)
    (h : analysis = none ∨
      (∃ a, analysis = some a ∧ a.completed = false ∧ a.min_confidence < 70) ∨
      fi_completed = 0) :
    (index_functions_run analysis fi_completed force_reindex
        pipeline_events pipeline_result).1.status = "failed" ∧
    (∃ msg,
      (index_functions_run analysis fi_completed force_reindex
          pipeline_events pipeline_result).1.error = some msg ∧
      (msg = msg_no_analysis ∨ (∃ c, msg = msg_incomplete c) ∨ msg = msg_no_file_index)) ∧
    (index_functions_run analysis fi_completed force_reindex
        pipeline_events pipeline_result).2 = [] := by
  cases analysis with
  | none =>
    exact ⟨rfl, ⟨msg_no_analysis, rfl, Or.inl rfl⟩, rfl⟩
  | some a =>
    by_cases hlow : ¬ a.completed ∧ a.min_confidence < 70
    · have hrun : index_functions_run (some a) fi_completed force_reindex
          pipeline_events pipeline_result =
          (⟨"failed", some (msg_incomplete a.min_confidence)⟩, []) := by
        simp only [index_functions_run, if_pos hlow]
      rw [hrun]
      exact ⟨rfl, ⟨msg_incomplete a.min_confidence, rfl,
        Or.inr (Or.inl ⟨a.min_confidence, rfl⟩)⟩, rfl⟩
    · have hz : fi_completed = 0 := by
        rcases h with h1 | h2 | h3
        · cases h1
        · obtain ⟨a1, ha1, hc, hm⟩ := h2
          injection ha1 with ha1
          subst ha1
          exact absurd ⟨by rw [hc]; decide, hm⟩ hlow
        · exact h3
      have hrun : index_functions_run (some a) fi_completed force_reindex
          pipeline_events pipeline_result = (⟨"failed", some msg_no_file_index⟩, []) := by
        simp only [index_functions_run, if_neg hlow, if_pos hz]
      rw [hrun]
      exact ⟨rfl, ⟨msg_no_file_index, rfl, Or.inr (Or.inr rfl)⟩, rfl⟩

/-- Witness for C6: with no analysis record, the run fails and produces no
vector store event. -/
theorem index_functions_gating_witness :
    (index_functions_run none 5 true [StoreEvent.add_documents "functions" 3]
        ⟨"success", none⟩).2 = [] :=
  (index_functions_gating none 5 true [StoreEvent.add_documents "functions" 3]
    ⟨"success", none⟩ (Or.inl rfl)).2.2

/-! ### Per-function analysis and fallback
(src/src/indexer/function_index_manager.py) -/

structure FunctionAnalysis where
  description : String
  purpose : String
  input_description : String
  output_description : String
  side_effects : List String
  complexity : String
deriving Repr, DecidableEq

structure ExtractedFunction where
  name : String
  file_path : String
  line_start : Nat
  line_end : Nat
  code : String
  parameters : List String
  docstring : Option String
deriving Repr, DecidableEq

/-- Python (func.docstring or f"Function {func.name}"): an absent or empty
docstring falls back to the generic description. -/
def fallback_description (func : ExtractedFunction) : String :=
  match func.docstring with
  | none => "Function " ++ func.name
  | some d => if d = "" then "Function " ++ func.name else d

/-- The minimal analysis returned when the per-function LLM call fails
(_analyze_function, lines 446-456). -/
def fallback_analysis (func : ExtractedFunction) : FunctionAnalysis :=
  ⟨fallback_description func, "", "", "", [], "medium"⟩

/-- _analyze_function (lines 417-456): the chat-completion-and-parse outcome
is supplied by the llm_result oracle; any failure there degrades to the
minimal fallback analysis instead of propagating. -/
def analyze_function (llm_result : Except String FunctionAnalysis)
    (func : ExtractedFunction) : FunctionAnalysis :=
  match llm_result with
  | Except.ok a => a
  | Except.error _ => fallback_analysis func

structure FunctionDoc where
  func_key : String × String × Nat
  content : String
  embedding : List Int
  description : String
  complexity : String
deriving Repr, DecidableEq

/-- analyze_single_function inside _process_file (lines 305-359): analyze
(with fallback), then embed; an exception in the embedding step is caught
and reported as (None, error), producing no document. -/
def analyze_single_function (llm_result : Except String FunctionAnalysis)
    (embed_result : Except String (List Int)) (func : ExtractedFunction) :
    Option FunctionDoc × Option String :=
  let analysis := analyze_function llm_result func
  match embed_result with
  | Except.ok emb =>
    (some ⟨⟨func.file_path, func.name, func.line_start⟩, func.code, emb,
      analysis.description, analysis.complexity⟩, none)
  | Except.error e => (none, some e)

/-- _process_file (lines 301-382): results of all functions are gathered and
only the successful documents are collected; the second component is the
extracted-function count written to the checkpoint. -/
def process_file_function_docs (funcs : List ExtractedFunction)
    (llm : ExtractedFunction → Except String FunctionAnalysis)
    (embed : ExtractedFunction → Except String (List Int)) :
    List FunctionDoc × Nat :=
  ((funcs.map fun f => analyze_single_function (llm f) (embed f) f).filterMap Prod.fst,
    funcs.length)

/-- C7 (amended). Whenever the embedding step succeeds, a document is
produced for the function even if its LLM analysis failed; in that case the
document carries the minimal fallback analysis: the docstring-based
description and complexity medium. A function can still be dropped, but only
when its embedding step fails. -/
theorem function_fallback_still_indexed (func : ExtractedFunction) :
    (∀ (llm_result : Except String FunctionAnalysis) (emb : List Int),
      (analyze_single_function llm_result (Except.ok emb) func).1.isSome = true) ∧
    (∀ (e : String) (emb : List Int),
      analyze_single_function (Except.error e) (Except.ok emb) func =
        (some ⟨⟨func.file_path, func.name, func.line_start⟩, func.code, emb,
          fallback_description func, "medium"⟩, none)) := by
  constructor
  · intro llm_result emb
    cases llm_result <;> rfl
  · intro e emb
    rfl

/-- The function used in the C7 counterexample. -/
def c7_func : ExtractedFunction :=
  ⟨"handler", "src/app.py", 10, 20, "def handler(req):\n    return req", ["req"], none⟩

/-- Counterexample to C7 as stated: one extracted function whose LLM analysis
even succeeds, but whose embedding call fails, yields zero indexed
documents — the function is dropped from the index, while the checkpoint
still records one extracted function. -/
theorem function_dropped_counterexample :
    process_file_function_docs [c7_func]
      (fun _ => Except.ok ⟨"desc", "p", "i", "o", [], "low"⟩)
      (fun _ => Except.error "embedding service unavailable") = ([], 1) ∧
    (0 : Nat) ≠ 1 := by
  exact ⟨rfl, by decide⟩

/-! ### Line-based chunking (src/src/indexer/chunker.py, lines 167-238)

The token estimator est stands for estimate_tokens, whose exact tokenizer is
external (tiktoken); every statement below holds for an arbitrary estimator.
The chunker state mirrors the loop variables chunks, current_lines,
current_tokens, chunk_index, start_line. -/

structure CodeChunk where
  content : String
  chunk_index : Nat
  total_chunks : Nat
  start_line : Nat
  end_line : Nat
deriving Repr, DecidableEq

structure ChunkLoopState where
  chunks : List CodeChunk
  current_lines : List String
  current_tokens : Nat
  chunk_index : Nat
  start_line : Nat
deriving Repr, DecidableEq

/-- The overlap calculation: walk the current lines from the last one
backwards, taking lines while the accumulated token count stays within the
overlap budget, and stop at the first line that does not fit. The argument
list is the reversed current_lines; the result is in original order together
with its token count. -/
def collect_overlap (est : String → Nat) (overlap_budget : Nat) :
    List String → Nat → List String × Nat
  | [], count => ([], count)
  | l :: rest, count =>
    if count + est l ≤ overlap_budget then
      let r := collect_overlap est overlap_budget rest (count + est l)
      (r.1 ++ [l], r.2)
    else ([], count)

/-- One iteration of the line loop at 1-based line number i: if adding the
line would exceed max_tokens and there is accumulated content, emit a chunk
ending at line i-1 and restart from the overlap at start_line i; then append
the line. -/
def chunk_step (est : String → Nat) (max_tokens overlap_tokens : Nat)
    (st : ChunkLoopState) (i : Nat) (line : String) : ChunkLoopState :=
  if max_tokens < st.current_tokens + est line ∧ st.current_lines ≠ [] then
    { chunks := st.chunks ++
        [⟨String.join st.current_lines, st.chunk_index, 0, st.start_line, i - 1⟩],
      current_lines := (collect_overlap est overlap_tokens st.current_lines.reverse 0).1
        ++ [line],
      current_tokens := (collect_overlap est overlap_tokens st.current_lines.reverse 0).2
        + est line,
      chunk_index := st.chunk_index + 1, start_line := i }
  else
    { chunks := st.chunks, current_lines := st.current_lines ++ [line],
      current_tokens := st.current_tokens + est line,
      chunk_index := st.chunk_index, start_line := st.start_line }

def chunk_loop (est : String → Nat) (max_tokens overlap_tokens : Nat) :
    List String → Nat → ChunkLoopState → ChunkLoopState
  | [], _, st => st
  | line :: rest, i, st =>
    chunk_loop est max_tokens overlap_tokens rest (i + 1)
      (chunk_step est max_tokens overlap_tokens st i line)

/-- _line_based_chunk: run the loop from line 1, append the final chunk when
content remains (its end_line is the total line count), then stamp
total_chunks on every chunk. -/
def line_based_chunk (est : String → Nat) (max_tokens overlap_tokens : Nat)
    (lines : List String) : List CodeChunk :=
  let stF := chunk_loop est max_tokens overlap_tokens lines 1 ⟨[], [], 0, 0, 1⟩
  let chunks :=
    if stF.current_lines ≠ [] then
      stF.chunks ++ [⟨String.join stF.current_lines, stF.chunk_index, 0,
        stF.start_line, lines.length⟩]
    else stF.chunks
  chunks.map fun c => { c with total_chunks := chunks.length }

/-- Well-formed chunk sequence: indices count up from idx, each chunk starts
exactly where expected, covers at least its own start line, and the next
chunk starts right after this chunk ends. -/
def chunk_chain : Nat → Nat → List CodeChunk → Prop
  | _, _, [] => True
  | idx, start, c :: rest =>
    c.chunk_index = idx ∧ c.start_line = start ∧ c.start_line ≤ c.end_line ∧
      chunk_chain (idx + 1) (c.end_line + 1) rest

/-- The (next index, next start line) pair expected after a chunk sequence. -/
def chain_next : Nat → Nat → List CodeChunk → Nat × Nat
  | idx, start, [] => (idx, start)
  | _, _, c :: rest => chain_next (c.chunk_index + 1) (c.end_line + 1) rest

lemma chunk_chain_snoc (c : CodeChunk) :
    ∀ (cs : List CodeChunk) (idx start : Nat),
      chunk_chain idx start cs →
      chain_next idx start cs = (c.chunk_index, c.start_line) →
      c.start_line ≤ c.end_line →
      chunk_chain idx start (cs ++ [c]) ∧
        chain_next idx start (cs ++ [c]) = (c.chunk_index + 1, c.end_line + 1) := by
  intro cs
  induction cs with
  | nil =>
    intro idx start hch hnext hle
    unfold chain_next at hnext
    injection hnext with h1 h2
    constructor
    · exact ⟨h1.symm, h2.symm, hle, trivial⟩
    · rfl
  | cons d rest ih =>
    intro idx start hch hnext hle
    obtain ⟨h1, h2, h3, h4⟩ := hch
    unfold chain_next at hnext
    have hrec := ih (d.chunk_index + 1) (d.end_line + 1) (by rw [h1]; exact h4)
      hnext hle
    refine ⟨⟨h1, h2, h3, ?_⟩, ?_⟩
    · rw [← h1]; exact hrec.1
    · unfold chain_next
      exact hrec.2

lemma chunk_chain_map_total (n : Nat) :
    ∀ (cs : List CodeChunk) (idx start : Nat), chunk_chain idx start cs →
      chunk_chain idx start (cs.map fun c => { c with total_chunks := n }) := by
  intro cs
  induction cs with
  | nil => intro idx start _; trivial
  | cons c rest ih =>
    intro idx start hch
    obtain ⟨h1, h2, h3, h4⟩ := hch
    exact ⟨h1, h2, h3, ih _ _ h4⟩

lemma chunk_chain_adjacent :
    ∀ (cs : List CodeChunk) (idx start k : Nat) (hk : k + 1 < cs.length),
      chunk_chain idx start cs →
      (cs.get ⟨k, by omega⟩).end_line + 1 = (cs.get ⟨k + 1, hk⟩).start_line := by
  intro cs
  induction cs with
  | nil => intro idx start k hk; simp at hk
  | cons c rest ih =>
    intro idx start k hk hch
    obtain ⟨h1, h2, h3, h4⟩ := hch
    cases k with
    | zero =>
      cases rest with
      | nil => simp at hk
      | cons d rest2 =>
        obtain ⟨g1, g2, g3, g4⟩ := h4
        simpa using g2.symm
    | succ k2 =>
      have hk2 : k2 + 1 < rest.length := by simpa using hk
      have := ih (idx + 1) (c.end_line + 1) k2 hk2 h4
      simpa using this

/-- Invariant of the chunking loop, where i is the 1-based number of the next
line to process. -/
def loop_invariant (st : ChunkLoopState) (i : Nat) : Prop :=
  1 ≤ i ∧
  chunk_chain 0 1 st.chunks ∧
  chain_next 0 1 st.chunks = (st.chunk_index, st.start_line) ∧
  st.start_line ≤ i ∧
  (st.current_lines ≠ [] → st.start_line + 1 ≤ i) ∧
  (st.current_lines = [] → st.chunks = [])

lemma chunk_step_invariant (est : String → Nat) (max_tokens overlap_tokens : Nat)
    (st : ChunkLoopState) (i : Nat) (line : String)
    (h : loop_invariant st i) :
    loop_invariant (chunk_step est max_tokens overlap_tokens st i line) (i + 1) := by
  obtain ⟨hi, hch, hnext, hsl, hne, hemp⟩ := h
  unfold chunk_step
  by_cases hcond : max_tokens < st.current_tokens + est line ∧ st.current_lines ≠ []
  · rw [if_pos hcond]
    have hstart : st.start_line + 1 ≤ i := hne hcond.2
    have hsnoc := chunk_chain_snoc
      ⟨String.join st.current_lines, st.chunk_index, 0, st.start_line, i - 1⟩
      st.chunks 0 1 hch (by rw [hnext]) (by simp; omega)
    refine ⟨by omega, hsnoc.1, ?_, by simp, by intro _; simp, by simp⟩
    have hi1 : i - 1 + 1 = i := by omega
    simp only [hsnoc.2]
    simp [hi1]
  · rw [if_neg hcond]
    refine ⟨by omega, hch, hnext, by simp; omega, by intro _; simp; omega, by simp⟩

lemma chunk_loop_invariant (est : String → Nat) (max_tokens overlap_tokens : Nat) :
    ∀ (lines : List String) (i : Nat) (st : ChunkLoopState),
      loop_invariant st i →
      loop_invariant (chunk_loop est max_tokens overlap_tokens lines i st)
        (i + lines.length) := by
  intro lines
  induction lines with
  | nil => intro i st h; simpa using h
  | cons line rest ih =>
    intro i st h
    have h2 := ih (i + 1) _ (chunk_step_invariant est max_tokens overlap_tokens st i line h)
    have heq : i + (line :: rest).length = (i + 1) + rest.length := by
      simp; omega
    rw [heq]
    exact h2

lemma loop_invariant_init : loop_invariant ⟨[], [], 0, 0, 1⟩ 1 := by
  refine ⟨le_refl 1, trivial, rfl, le_refl 1, ?_, fun _ => rfl⟩
  intro hc
  exact absurd rfl hc

/-- C8 (amended). For every token estimator, every budget and every file, the
line-based chunker emits a well-formed chunk sequence: indices run 0,1,2,...,
the first chunk starts at line 1, every chunk spans at least its start line,
each chunk records total_chunks equal to the number of chunks, the last
chunk ends at the file's last line, and adjacent chunks are contiguous in
recorded coordinates: end_line + 1 = next start_line. The carried overlap
lives only in the chunk contents; it is not reflected in the recorded line
numbers, so end_line is strictly below the next start_line rather than at or
above it. -/
theorem line_based_chunk_consistent (est : String → Nat) (max_tokens overlap_tokens : Nat)
    (lines : List String) :
    chunk_chain 0 1 (line_based_chunk est max_tokens overlap_tokens lines) ∧
    (∀ c ∈ line_based_chunk est max_tokens overlap_tokens lines,
      c.total_chunks = (line_based_chunk est max_tokens overlap_tokens lines).length) ∧
    (∀ c, (line_based_chunk est max_tokens overlap_tokens lines).getLast? = some c →
      c.end_line = lines.length) ∧
    (∀ k (hk1 : k + 1 < (line_based_chunk est max_tokens overlap_tokens lines).length),
      ((line_based_chunk est max_tokens overlap_tokens lines).get
          ⟨k, by omega⟩).end_line + 1 =
        ((line_based_chunk est max_tokens overlap_tokens lines).get
          ⟨k + 1, hk1⟩).start_line) := by
  have hinv := chunk_loop_invariant est max_tokens overlap_tokens lines 1
    ⟨[], [], 0, 0, 1⟩ loop_invariant_init
  set stF := chunk_loop est max_tokens overlap_tokens lines 1 ⟨[], [], 0, 0, 1⟩ with hstF
  obtain ⟨hi, hch, hnext, hsl, hne, hemp⟩ := hinv
  have hmain : ∃ chunks1,
      line_based_chunk est max_tokens overlap_tokens lines =
        chunks1.map (fun c => { c with total_chunks := chunks1.length }) ∧
      chunk_chain 0 1 chunks1 ∧
      (∀ c, chunks1.getLast? = some c → c.end_line = lines.length) := by
    refine ⟨if stF.current_lines ≠ [] then
        stF.chunks ++ [⟨String.join stF.current_lines, stF.chunk_index, 0,
          stF.start_line, lines.length⟩]
      else stF.chunks, ?_, ?_, ?_⟩
    · rfl
    · by_cases hcl : stF.current_lines ≠ []
      · rw [if_pos hcl]
        have hstart : stF.start_line ≤ lines.length := by
          have := hne hcl
          omega
        exact (chunk_chain_snoc _ stF.chunks 0 1 hch (by rw [hnext]) (by simpa)).1
      · rw [if_neg hcl]
        exact hch
    · intro c hc
      by_cases hcl : stF.current_lines ≠ []
      · rw [if_pos hcl, List.getLast?_concat] at hc
        injection hc with hc
        rw [← hc]
      · rw [if_neg hcl] at hc
        rw [hemp (not_not.mp hcl)] at hc
        simp at hc
  obtain ⟨chunks1, heq, hch1, hlast⟩ := hmain
  rw [heq]
  refine ⟨chunk_chain_map_total _ _ _ _ hch1, ?_, ?_, ?_⟩
  · intro c hc
    rw [List.mem_map] at hc
    obtain ⟨c0, _, hc0⟩ := hc
    rw [← hc0]
    simp
  · intro c hc
    cases hl : chunks1.getLast? with
    | none =>
      rw [List.getLast?_eq_none_iff] at hl
      rw [hl] at hc
      simp at hc
    | some c0 =>
      have hc0 := hlast c0 hl
      have hmap : (chunks1.map (fun c => { c with total_chunks := chunks1.length })).getLast?
          = some { c0 with total_chunks := chunks1.length } := by
        rw [List.getLast?_map, hl]
        rfl
      rw [hmap] at hc
      injection hc with hc
      rw [← hc]
      exact hc0
  · intro k hk1
    exact chunk_chain_adjacent _ 0 1 k hk1 (chunk_chain_map_total _ _ _ _ hch1)

/-- Witness for the amended C8: on a concrete overlong input the last chunk
ends at the last line of the file. -/
theorem line_based_chunk_consistent_witness :
    (⟨"cdef", 2, 3, 3, 3⟩ : CodeChunk).end_line = 3 :=
  (line_based_chunk_consistent (fun s => s.length) 3 2 ["ab", "cd", "ef"]).2.2.1
    ⟨"cdef", 2, 3, 3, 3⟩ (by decide)

/-- Counterexample to C8 as stated: a file of three two-character lines with
max_tokens 3 (the whole file estimates to 6 tokens, so it exceeds the
budget) and overlap 2 produces three chunks whose contents do carry the
overlap (chunk 1 starts with the text of chunk 0), yet every adjacent pair
has end_line strictly below the next start_line — 1 < 2 — so the claimed
c[i].end_line ≥ c[i+1].start_line fails. -/
theorem chunk_line_overlap_counterexample :
    line_based_chunk (fun s => s.length) 3 2 ["ab", "cd", "ef"] =
      [⟨"ab", 0, 3, 1, 1⟩, ⟨"abcd", 1, 3, 2, 2⟩, ⟨"cdef", 2, 3, 3, 3⟩] ∧
    3 < (("ab" : String) ++ "cd" ++ "ef").length ∧
    ¬ ((1 : Nat) ≥ 2) := by
  exact ⟨by decide, by decide, by decide⟩

/-! ### Project scanning (src/src/indexer/scanner.py)

scan_project walks the tree with Path.rglob and emits a FileMetadata for
every entry that survives the gitignore, exclude, include, and
should_index_file checks, in the order the walk yields them. The walk order
and the pathspec matchers are external; they enter the model as the walk
list and the three boolean matchers of ScanEnv. -/

structure ScanEntry where
  relative_path : String
  file_size : Nat
  suffix : String
deriving Repr, DecidableEq

structure ScanEnv where
  gitignore_match : String → Bool
  exclude_match : String → Bool
  include_match : String → Bool
  max_size_bytes : Nat

def binary_extensions : List String :=
  [".png", ".jpg", ".jpeg", ".gif", ".pdf", ".zip", ".tar", ".gz",
   ".ico", ".woff", ".woff2", ".ttf", ".eot", ".pyc", ".so", ".dll",
   ".exe", ".bin", ".dat"]

/-- should_index_file (scanner.py lines 154-187): reject oversized, empty and
binary-extension files. -/
def should_index_file (suffix : String) (file_size max_size_bytes : Nat) : Bool :=
  if max_size_bytes < file_size then false
  else if file_size = 0 then false
  else if binary_extensions.contains suffix then false
  else true

/-- The scan loop (scanner.py lines 78-125): each walk entry is skipped by
the first matching rule, otherwise appended to the output in walk order. -/
def scan_project (env : ScanEnv) : List ScanEntry → List ScanEntry
  | [] => []
  | e :: rest =>
    if env.gitignore_match e.relative_path then scan_project env rest
    else if env.exclude_match e.relative_path then scan_project env rest
    else if ¬ env.include_match e.relative_path then scan_project env rest
    else if ¬ should_index_file e.suffix e.file_size env.max_size_bytes then
      scan_project env rest
    else e :: scan_project env rest

/-- The combined keep condition of the scan loop. -/
def scan_keep (env : ScanEnv) (e : ScanEntry) : Bool :=
  !env.gitignore_match e.relative_path && !env.exclude_match e.relative_path &&
    env.include_match e.relative_path &&
    should_index_file e.suffix e.file_size env.max_size_bytes

lemma scan_project_eq_filter (env : ScanEnv) :
    ∀ walk : List ScanEntry, scan_project env walk = walk.filter (scan_keep env) := by
  intro walk
  induction walk with
  | nil => rfl
  | cons e rest ih =>
    by_cases h1 : env.gitignore_match e.relative_path
    · simp [scan_project, List.filter, scan_keep, h1, ih]
    · by_cases h2 : env.exclude_match e.relative_path
      · simp [scan_project, List.filter, scan_keep, h1, h2, ih]
      · by_cases h3 : env.include_match e.relative_path
        · by_cases h4 : should_index_file e.suffix e.file_size env.max_size_bytes
          · simp [scan_project, List.filter, scan_keep, h1, h2, h3, h4, ih]
          · simp [scan_project, List.filter, scan_keep, h1, h2, h3, h4, ih]
        · simp [scan_project, List.filter, scan_keep, h1, h2, h3, ih]

/-- C9 (amended). scan_project performs no sorting: its output is the
subsequence of the underlying walk order that passes the filters — an entry
is emitted iff it is in the walk and survives the gitignore, exclude,
include and size/binary checks, and the relative order of emitted entries is
the walk order. The output is lexicographic only when the walk order is. -/
theorem scan_project_preserves_walk_order (env : ScanEnv) (walk : List ScanEntry) :
    List.Sublist (scan_project env walk) walk ∧
    (∀ e, e ∈ scan_project env walk ↔ e ∈ walk ∧ scan_keep env e = true) := by
  constructor
  · rw [scan_project_eq_filter]
    exact List.filter_sublist walk
  · intro e
    rw [scan_project_eq_filter]
    exact List.mem_filter

/-- Witness for the amended C9 at a concrete walk. -/
theorem scan_project_preserves_walk_order_witness :
    (⟨"a.py", 10, ".py"⟩ : ScanEntry) ∈
      scan_project ⟨fun _ => false, fun _ => false, fun _ => true, 1048576⟩
        [⟨"b.py", 10, ".py"⟩, ⟨"a.py", 10, ".py"⟩] :=
  ((scan_project_preserves_walk_order
      ⟨fun _ => false, fun _ => false, fun _ => true, 1048576⟩
      [⟨"b.py", 10, ".py"⟩, ⟨"a.py", 10, ".py"⟩]).2 ⟨"a.py", 10, ".py"⟩).mpr
    ⟨by simp, rfl⟩

/-- Lexicographic comparison on character lists (by Unicode code point), the
order meant by the lexicographic-output claim. -/
def lex_le : List Char → List Char → Bool
  | [], _ => true
  | _ :: _, [] => false
  | a :: as, b :: bs =>
    if a.val < b.val then true
    else if b.val < a.val then false
    else lex_le as bs

/-- The environment of the C9 counterexample: no ignore rules, everything
included, generous size limit. -/
def c9_env : ScanEnv := ⟨fun _ => false, fun _ => false, fun _ => true, 1048576⟩

/-- A walk that yields b.py before a.py, as a directory walk may. -/
def c9_walk : List ScanEntry := [⟨"b.py", 10, ".py"⟩, ⟨"a.py", 10, ".py"⟩]

/-- Counterexample to C9 as stated: for a walk that yields b.py before a.py,
scan_project returns the files in that same walk order, and that output is
not in lexicographic order of relative path — the first emitted path does
not precede the second, although the reversed order would be sorted. -/
theorem scan_project_not_sorted_counterexample :
    scan_project c9_env c9_walk = c9_walk ∧
    lex_le ("b.py" : String).data ("a.py" : String).data = false ∧
    lex_le ("a.py" : String).data ("b.py" : String).data = true ∧
    ¬ List.Chain'
      (fun x y : ScanEntry => lex_le x.relative_path.data y.relative_path.data = true)
      (scan_project c9_env c9_walk) := by
  refine ⟨rfl, by decide, by decide, ?_⟩
  intro h
  rw [show scan_project c9_env c9_walk = c9_walk from rfl] at h
  have h1 := (List.chain'_cons.mp h).1
  rw [show lex_le ("b.py" : String).data ("a.py" : String).data = false by decide] at h1
  cases h1

end ProjectIndexer
